import Mathlib

/-!
Verification of the deck8-hub audio pipeline (src/src-tauri/src/audio.rs).

Shallow embedding conventions:
* 32-bit float samples and volumes are embedded as exact rationals (ℚ); the
  spec states all sample formulas in exact arithmetic.
* The f64 resampling positions of play_sound are likewise embedded as exact
  rationals.
* Ring buffers (ringbuf::HeapRb) are embedded as a capacity plus the list of
  occupied samples, front = consumer end; try_push appends at the back when
  there is room and silently drops otherwise, try_pop removes the front.
* Fallible operations return Except; the rodio decode step (external crate)
  is abstracted as its result, handed to the embedded function.
-/

namespace Deck8Hub

/-- A 32-bit float audio sample, embedded as an exact rational. -/
abbrev Sample := ℚ

/-- A fixed-capacity SPSC ring buffer of f32 samples (ringbuf::HeapRb):
capacity plus the occupied samples, front = consumer end. -/
structure RingBuf where
  capacity : ℕ
  data : List Sample
deriving Repr, DecidableEq

/-- ringbuf try_push: append at the back if there is room, else drop the
sample silently (the non-blocking overflow policy of the source). -/
def RingBuf.tryPush (rb : RingBuf) (s : Sample) : RingBuf :=
  if rb.data.length < rb.capacity then { rb with data := rb.data ++ [s] } else rb

/-- ringbuf try_pop: remove and return the front sample, or none when empty. -/
def RingBuf.tryPop (rb : RingBuf) : Option Sample × RingBuf :=
  match rb.data with
  | [] => (none, rb)
  | x :: xs => (some x, { rb with data := xs })

/-- Push a whole sample sequence with non-blocking writes, in order
(the injection loop of play_sound, audio.rs lines 465-468). -/
def RingBuf.pushAll (rb : RingBuf) (xs : List Sample) : RingBuf :=
  xs.foldl RingBuf.tryPush rb

/-- The shared runtime state of the pipeline that MicSource and the
AudioPipeline handle both reach: the two ring buffers (capture, injection)
and the two atomic volume scalars (audio.rs lines 260-267 and 304-314).
The AtomicU32 volume cells store f32 bit patterns; since
f32::from_bits (v.to_bits()) is the bitwise identity, the cells are embedded
as holding the float value itself. -/
structure AudioPipeline where
  consumer : RingBuf
  sound_consumer : RingBuf
  volume : Sample
  sound_volume : Sample
deriving Repr, DecidableEq

/-- MicSource::next (audio.rs lines 272-281): pop one sample from each ring
buffer (0.0 when empty), load the two volume scalars, and yield
`Some (mic * vol + sound * svol)` together with the advanced buffers. -/
def MicSource.next (s : AudioPipeline) : Option Sample × AudioPipeline :=
  let micPop := s.consumer.tryPop
  let mic_sample := micPop.1.getD 0
  let vol := s.volume
  let soundPop := s.sound_consumer.tryPop
  let sound_sample := soundPop.1.getD 0
  let svol := s.sound_volume
  (some (mic_sample * vol + sound_sample * svol),
    { s with consumer := micPop.2, sound_consumer := soundPop.2 })

/-- AudioPipeline::set_mic_volume (audio.rs lines 493-495): store the new
mic volume (bit-pattern store on the AtomicU32, embedded as the value). -/
def set_mic_volume (s : AudioPipeline) (vol : Sample) : AudioPipeline :=
  { s with volume := vol }

/-- AudioPipeline::set_sound_volume (audio.rs lines 497-499). -/
def set_sound_volume (s : AudioPipeline) (vol : Sample) : AudioPipeline :=
  { s with sound_volume := vol }

/-- The stereo→mono branch of play_sound's channel conversion
(audio.rs lines 436-439): `raw.chunks(2)` averaged pairwise, a final
odd chunk averaged with an implicit 0.0 via `c.get(1).copied().unwrap_or(0.0)`. -/
def stereoToMono : List Sample → List Sample
  | [] => []
  | [a] => [(a + 0) / 2]
  | a :: b :: rest => (a + b) / 2 :: stereoToMono rest

/-- The mono→stereo branch of play_sound's channel conversion
(audio.rs line 441): `raw.iter().flat_map(|&s| [s, s])`. -/
def monoToStereo : List Sample → List Sample
  | [] => []
  | s :: rest => s :: s :: monoToStereo rest

/-- play_sound's channel conversion dispatch (audio.rs lines 436-444). -/
def channelConvert (src_channels dst_channels : ℕ) (raw : List Sample) : List Sample :=
  if src_channels = 2 ∧ dst_channels = 1 then stereoToMono raw
  else if src_channels = 1 ∧ dst_channels = 2 then monoToStereo raw
  else raw

/-- One output sample of the linear-interpolation resampler
(the loop body of audio.rs lines 451-458): locate `src_pos = i * ratio`,
floor to `idx`, take the fractional part, read the two bracketing samples
(`s0` defaulting to 0.0 out of range, `s1` defaulting to `s0`), and
interpolate. -/
def resampleAt (xs : List Sample) (ratio : ℚ) (i : ℕ) : Sample :=
  let src_pos : ℚ := i * ratio
  let idx : ℕ := ⌊src_pos⌋₊
  let frac : ℚ := src_pos - idx
  let s0 := xs.getD idx 0
  let s1 := xs.getD (idx + 1) s0
  s0 + (s1 - s0) * frac

/-- play_sound's sample-rate conversion (audio.rs lines 446-462): when
`src_rate ≠ dst_rate`, emit `(len / ratio)` floored samples of linear
interpolation at `ratio = src_rate / dst_rate`; otherwise pass through. -/
def resample (src_rate dst_rate : ℕ) (xs : List Sample) : List Sample :=
  if src_rate ≠ dst_rate then
    let ratio : ℚ := (src_rate : ℚ) / (dst_rate : ℚ)
    let out_len : ℕ := ⌊(xs.length : ℚ) / ratio⌋₊
    (List.range out_len).map (resampleAt xs ratio)
  else xs

/-- The full conversion play_sound applies to a decoded clip before pushing
into the injection buffer (audio.rs lines 435-462): channel conversion,
then sample-rate conversion. -/
def playSoundConvert (raw : List Sample)
    (src_rate src_channels dst_rate dst_channels : ℕ) : List Sample :=
  resample src_rate dst_rate (channelConvert src_channels dst_channels raw)

/-- The error cases of play_sound and import_to_library_trimmed. -/
inductive AudioError where
  | decodeError
  | emptyTrim
deriving Repr, DecidableEq

/-- A decoded audio clip: normalized float samples with the source's native
channel count and sample rate (the output of the rodio Decoder, an external
crate, abstracted as its result). -/
structure DecodedAudio where
  samples : List Sample
  sample_rate : ℕ
  channels : ℕ
deriving Repr, DecidableEq

/-- The WAV file import_to_library_trimmed writes on success
(audio.rs lines 170-182: spec plus the trimmed samples). -/
structure WavWrite where
  channels : ℕ
  sample_rate : ℕ
  samples : List Sample
deriving Repr, DecidableEq

/-- import_to_library_trimmed (audio.rs lines 139-193), with the decoder's
output abstracted as the i16 sample list `decoded` plus its rate and channel
count. Converts the millisecond bounds to sample offsets, slices, normalizes
by 1/32768, and bails with `emptyTrim` when the slice is empty. In the
source, the bail (line 163) precedes every file-producing step (the WAV
writer is created at line 176), so an `Except.error` result corresponds to
no file on disk; the `WavWrite` payload exists only in the ok case. -/
def import_to_library_trimmed (decoded : List ℤ) (sample_rate channels : ℕ)
    (start_ms end_ms : ℕ) : Except AudioError WavWrite :=
  let start_sample := start_ms * sample_rate * channels / 1000
  let end_sample := end_ms * sample_rate * channels / 1000
  let samples : List Sample :=
    ((decoded.drop start_sample).take (end_sample - start_sample)).map
      (fun (s : ℤ) => (s : ℚ) / 32768)
  if samples.isEmpty then Except.error AudioError.emptyTrim
  else Except.ok { channels := channels, sample_rate := sample_rate, samples := samples }

/-- AudioPipeline::play_sound (audio.rs lines 417-491): the decode step
(external rodio crate) is abstracted as its Except result; the early return
on decode failure (`?` at line 424) yields the error before any conversion,
push, or monitoring-thread spawn. The Bool records whether the fire-and-forget
monitoring playback thread was spawned (line 479). -/
def play_sound (decoded : Except AudioError DecodedAudio)
    (pipeline_sample_rate pipeline_channels : ℕ)
    (s : AudioPipeline) : Except AudioError Unit × AudioPipeline × Bool :=
  match decoded with
  | Except.error e => (Except.error e, s, false)
  | Except.ok d =>
      let resampled := playSoundConvert d.samples d.sample_rate d.channels
        pipeline_sample_rate pipeline_channels
      (Except.ok (),
        { s with sound_consumer := s.sound_consumer.pushAll resampled },
        true)

/-- get_audio_duration (audio.rs lines 198-212), with the decoder abstracted
as its total sample count, rate and channel count: guard against zero rate
or channels, then report `frames * 1000 / sample_rate` milliseconds. -/
def get_audio_duration (total_samples sample_rate channels : ℕ) : ℕ :=
  if sample_rate = 0 ∨ channels = 0 then 0
  else
    let frames := total_samples / channels
    frames * 1000 / sample_rate

/-! ## Helper lemmas -/

/-- Characterization of one mixer pull: the yielded sample and the advanced
buffers, shared by the mixer and volume-setter theorems. -/
theorem mixer_next_eq (s : AudioPipeline) :
    MicSource.next s =
      (some (s.consumer.data.headD 0 * s.volume
          + s.sound_consumer.data.headD 0 * s.sound_volume),
        { s with
            consumer := { s.consumer with data := s.consumer.data.tail },
            sound_consumer := { s.sound_consumer with data := s.sound_consumer.data.tail } }) := by
  obtain ⟨⟨c1, d1⟩, ⟨c2, d2⟩, v, sv⟩ := s
  cases d1 <;> cases d2 <;> simp [MicSource.next, RingBuf.tryPop]

/-- Mono→stereo duplication doubles the sample count. -/
theorem monoToStereo_length (xs : List Sample) :
    (monoToStereo xs).length = 2 * xs.length := by
  induction xs with
  | nil => simp [monoToStereo]
  | cons s rest ih => simp [monoToStereo, ih]; omega

/-- Stereo→mono averaging halves the sample count, rounding up. -/
theorem stereoToMono_length (xs : List Sample) :
    (stereoToMono xs).length = (xs.length + 1) / 2 := by
  induction xs using stereoToMono.induct with
  | case1 => simp [stereoToMono]
  | case2 a => simp [stereoToMono]
  | case3 a b rest ih => simp [stereoToMono, ih]; omega

/-- getLastD does not depend on the default on a nonempty list. -/
theorem getLastD_irrel (l : List Sample) (d d' : Sample) (h : l ≠ []) :
    l.getLastD d = l.getLastD d' := by
  cases l with
  | nil => exact absurd rfl h
  | cons x t => rw [List.getLastD_cons, List.getLastD_cons]

/-- Stereo→mono conversion of a nonempty input is nonempty. -/
theorem stereoToMono_ne_nil (xs : List Sample) (h : xs ≠ []) :
    stereoToMono xs ≠ [] := by
  have hl := stereoToMono_length xs
  intro he
  rw [he] at hl
  have : xs.length ≠ 0 := by
    intro h0
    exact h (List.length_eq_zero.mp h0)
  simp at hl
  omega

/-- Pushing a sample sequence with non-blocking writes fills the buffer up to
its capacity and drops the rest. -/
theorem pushAll_data_length (xs : List Sample) (rb : RingBuf)
    (h : rb.data.length ≤ rb.capacity) :
    ((rb.pushAll xs).data).length = min (rb.data.length + xs.length) rb.capacity := by
  induction xs generalizing rb with
  | nil => simp [RingBuf.pushAll]; omega
  | cons s rest ih =>
      simp only [RingBuf.pushAll, List.foldl_cons] at ih ⊢
      by_cases hlt : rb.data.length < rb.capacity
      · rw [ih (rb.tryPush s) (by simp [RingBuf.tryPush, hlt]; omega)]
        simp [RingBuf.tryPush, hlt]
        omega
      · rw [ih (rb.tryPush s) (by simp [RingBuf.tryPush, hlt]; omega)]
        simp [RingBuf.tryPush, hlt]
        omega

/-- The resampler's f64 output-length computation `(len / ratio) as usize`,
carried out in exact arithmetic, is the integer division `len * dst / src`. -/
theorem resample_length (src_rate dst_rate : ℕ) (xs : List Sample)
    (hne : src_rate ≠ dst_rate) :
    (resample src_rate dst_rate xs).length = xs.length * dst_rate / src_rate := by
  simp only [resample, hne, ne_eq, not_false_eq_true, if_true, List.length_map,
    List.length_range]
  rw [div_div_eq_mul_div]
  have hcast : (xs.length : ℚ) * (dst_rate : ℚ) = ((xs.length * dst_rate : ℕ) : ℚ) := by
    push_cast; ring
  rw [hcast, Nat.floor_div_nat, Nat.floor_natCast]

/-- Each in-range resampler output is the interpolation loop body at its index. -/
theorem resample_getD (src_rate dst_rate : ℕ) (xs : List Sample) (i : ℕ)
    (hne : src_rate ≠ dst_rate)
    (hi : i < (resample src_rate dst_rate xs).length) :
    (resample src_rate dst_rate xs).getD i 0
      = resampleAt xs ((src_rate : ℚ) / dst_rate) i := by
  rw [List.getD_eq_getElem _ _ hi]
  simp only [resample, hne, ne_eq, not_false_eq_true, if_true] at hi ⊢
  simp only [List.getElem_map, List.getElem_range]

/-- For every in-range output index, the floored source position stays inside
the input, so the lower bracketing sample always exists. -/
theorem floor_pos_lt_len (src_rate dst_rate : ℕ) (xs : List Sample) (i : ℕ)
    (hs : 0 < src_rate) (hd : 0 < dst_rate)
    (hi : i < xs.length * dst_rate / src_rate) :
    ⌊(i : ℚ) * ((src_rate : ℚ) / dst_rate)⌋₊ < xs.length := by
  have h1 : (i + 1) * src_rate ≤ xs.length * dst_rate :=
    (Nat.le_div_iff_mul_le hs).mp hi
  have h2 : i * src_rate < xs.length * dst_rate := by nlinarith
  have hq : (i : ℚ) * ((src_rate : ℚ) / dst_rate) < xs.length := by
    rw [mul_div_assoc'] at *
    rw [div_lt_iff₀ (by exact_mod_cast hd)]
    exact_mod_cast h2
  have hnn : (0 : ℚ) ≤ (i : ℚ) * ((src_rate : ℚ) / dst_rate) := by positivity
  exact (Nat.floor_lt hnn).mpr hq

/-! ## Claim theorems -/

/-- Claim C1: for every state of the two ring buffers and the two volume
scalars, one pull of the mixer (MicSource::next) yields exactly one output
sample, equal to mic_sample * mic_volume + sound_sample * sound_volume where
each term is the popped front of its buffer or 0.0 on an empty buffer; the
result is always `some` — an empty buffer never produces an error or a wait. -/
theorem mixer_pull_spec (s : AudioPipeline) :
    MicSource.next s =
      (some (s.consumer.data.headD 0 * s.volume
          + s.sound_consumer.data.headD 0 * s.sound_volume),
        { s with
            consumer := { s.consumer with data := s.consumer.data.tail },
            sound_consumer := { s.sound_consumer with data := s.sound_consumer.data.tail } }) :=
  mixer_next_eq s

/-- Claim C2: for positive rates with src_rate ≠ dst_rate, the resampling step
of play_sound produces floor(input_length * dst_rate / src_rate) samples
(floor(input_length / ratio) in exact arithmetic); for each output index the
floored source position idx lies inside the input, and the output sample is
the linear interpolation of the two bracketing source samples when the upper
one exists, and the lower sample alone at the right boundary. -/
theorem resample_spec (src_rate dst_rate : ℕ) (xs : List Sample)
    (hs : 0 < src_rate) (hd : 0 < dst_rate) (hne : src_rate ≠ dst_rate) :
    (resample src_rate dst_rate xs).length = xs.length * dst_rate / src_rate ∧
    (∀ i, i < xs.length * dst_rate / src_rate →
      ⌊(i : ℚ) * ((src_rate : ℚ) / dst_rate)⌋₊ < xs.length) ∧
    (∀ i, i < xs.length * dst_rate / src_rate →
      ⌊(i : ℚ) * ((src_rate : ℚ) / dst_rate)⌋₊ + 1 < xs.length →
      (resample src_rate dst_rate xs).getD i 0
        = xs.getD ⌊(i : ℚ) * ((src_rate : ℚ) / dst_rate)⌋₊ 0
          + (xs.getD (⌊(i : ℚ) * ((src_rate : ℚ) / dst_rate)⌋₊ + 1) 0
             - xs.getD ⌊(i : ℚ) * ((src_rate : ℚ) / dst_rate)⌋₊ 0)
            * ((i : ℚ) * ((src_rate : ℚ) / dst_rate)
               - (⌊(i : ℚ) * ((src_rate : ℚ) / dst_rate)⌋₊ : ℚ))) ∧
    (∀ i, i < xs.length * dst_rate / src_rate →
      xs.length ≤ ⌊(i : ℚ) * ((src_rate : ℚ) / dst_rate)⌋₊ + 1 →
      (resample src_rate dst_rate xs).getD i 0
        = xs.getD ⌊(i : ℚ) * ((src_rate : ℚ) / dst_rate)⌋₊ 0) := by
  have hlen := resample_length src_rate dst_rate xs hne
  refine ⟨hlen, ?_, ?_, ?_⟩
  · intro i hi
    exact floor_pos_lt_len src_rate dst_rate xs i hs hd hi
  · intro i hi hbr
    have hi' : i < (resample src_rate dst_rate xs).length := by rw [hlen]; exact hi
    rw [resample_getD src_rate dst_rate xs i hne hi']
    simp only [resampleAt]
    rw [List.getD_eq_getElem _ _ hbr, List.getD_eq_getElem _ _ hbr]
  · intro i hi hge
    have hi' : i < (resample src_rate dst_rate xs).length := by rw [hlen]; exact hi
    rw [resample_getD src_rate dst_rate xs i hne hi']
    simp only [resampleAt]
    rw [List.getD_eq_default _ _ hge]
    ring

/-- Witness for C2 at src_rate 3, dst_rate 2 on a six-sample input. -/
theorem resample_spec_witness :
    (resample 3 2 [1, 2, 3, 4, 5, 6]).length = [1, 2, 3, 4, 5, 6].length * 2 / 3 :=
  (resample_spec 3 2 [1, 2, 3, 4, 5, 6] (by decide) (by decide) (by decide)).1

/-- Claim C3: a decoded mono 500 ms clip at 8000 Hz (4000 samples) injected
into a fresh 2-channel 48000 Hz pipeline results in exactly
500 * 48000 * 2 / 1000 = 48000 samples pushed into the injection ring buffer
(mono duplicated to 8000 samples, then rate-converted by ratio 8000/48000),
counted as the occupancy of the 30-second buffer after play_sound's pushes. -/
theorem inject_count_spec (raw : List Sample) (hlen : raw.length = 4000) :
    ((RingBuf.pushAll { capacity := 48000 * 2 * 30, data := [] }
        (playSoundConvert raw 8000 1 48000 2)).data).length
      = 500 * 48000 * 2 / 1000 := by
  have hcc : channelConvert 1 2 raw = monoToStereo raw := by
    simp only [channelConvert]
    norm_num
  have hch : (channelConvert 1 2 raw).length = 8000 := by
    rw [hcc, monoToStereo_length, hlen]
  have hconv : (playSoundConvert raw 8000 1 48000 2).length = 48000 := by
    unfold playSoundConvert
    rw [resample_length 8000 48000 _ (by norm_num), hch]
  rw [pushAll_data_length _ _ (by simp), hconv]
  norm_num

/-- Witness for C3 on the all-zero 4000-sample clip. -/
theorem inject_count_spec_witness :
    ((RingBuf.pushAll { capacity := 48000 * 2 * 30, data := [] }
        (playSoundConvert (List.replicate 4000 0) 8000 1 48000 2)).data).length
      = 500 * 48000 * 2 / 1000 :=
  inject_count_spec (List.replicate 4000 0) (by rw [List.length_replicate])

/-- Claim C4: duplicating each mono sample into both stereo channels and then
averaging the two channels per frame reproduces the original samples exactly. -/
theorem mono_stereo_roundtrip (xs : List Sample) :
    stereoToMono (monoToStereo xs) = xs := by
  induction xs with
  | nil => simp [monoToStereo, stereoToMono]
  | cons s rest ih => simp [monoToStereo, stereoToMono, ih]

/-- Claim C5: when source and destination rates coincide, play_sound's
sample-rate conversion step is the identity on the channel-converted input. -/
theorem resample_identity (rate : ℕ) (xs : List Sample) :
    resample rate rate xs = xs := by
  simp [resample]

/-- Claim C6: import_to_library_trimmed returns the empty-trim error whenever
start_ms = end_ms, or the range starts at or past the clip's exact duration
(start_ms * sample_rate * channels ≥ decoded_length * 1000, i.e. the slice
[start_ms, end_ms) lies beyond the clip); the error is returned before any
file write, so no output file is created (the WavWrite payload exists only in
the ok case). -/
theorem import_trimmed_empty (decoded : List ℤ) (sample_rate channels start_ms end_ms : ℕ)
    (h : start_ms = end_ms ∨ decoded.length * 1000 ≤ start_ms * sample_rate * channels) :
    import_to_library_trimmed decoded sample_rate channels start_ms end_ms
      = Except.error AudioError.emptyTrim := by
  rcases h with he | hb
  · subst he
    simp [import_to_library_trimmed]
  · have hge : decoded.length ≤ start_ms * sample_rate * channels / 1000 :=
      (Nat.le_div_iff_mul_le (by norm_num)).mpr hb
    simp [import_to_library_trimmed, List.drop_eq_nil_of_le hge]

/-- Witness for C6: a zero-width trim of a three-sample clip at 1000 Hz mono. -/
theorem import_trimmed_empty_witness :
    import_to_library_trimmed [1, 2, 3] 1000 1 2 2 = Except.error AudioError.emptyTrim :=
  import_trimmed_empty [1, 2, 3] 1000 1 2 2 (Or.inl rfl)

/-- Claim C7: when the decode step fails, play_sound surfaces the error, pushes
no samples into the injection ring buffer, spawns no monitoring playback, and
leaves the pipeline state (buffers and volumes) unchanged. -/
theorem play_sound_decode_error (e : AudioError)
    (pipeline_sample_rate pipeline_channels : ℕ) (s : AudioPipeline) :
    play_sound (Except.error e) pipeline_sample_rate pipeline_channels s
      = (Except.error e, s, false) :=
  rfl

/-- Claim C8: get_audio_duration reports total_samples / channels * 1000 /
sample_rate milliseconds, returns 0 whenever the sample rate or channel count
is 0 instead of dividing by zero, and yields 2000 on a 2-second 48 kHz mono
file (96000 samples). -/
theorem get_duration_spec (total_samples sample_rate channels : ℕ)
    (hr : sample_rate ≠ 0) (hc : channels ≠ 0) :
    get_audio_duration total_samples sample_rate channels
        = total_samples / channels * 1000 / sample_rate ∧
    get_audio_duration total_samples 0 channels = 0 ∧
    get_audio_duration total_samples sample_rate 0 = 0 ∧
    get_audio_duration 96000 48000 1 = 2000 :=
  ⟨by simp [get_audio_duration, hr, hc], by simp [get_audio_duration],
   by simp [get_audio_duration], by norm_num [get_audio_duration]⟩

/-- Witness for C8 on the synthetic 2-second 48 kHz mono file. -/
theorem get_duration_spec_witness :
    get_audio_duration 96000 48000 1 = 96000 / 1 * 1000 / 48000 ∧
    get_audio_duration 96000 0 1 = 0 ∧
    get_audio_duration 96000 48000 0 = 0 ∧
    get_audio_duration 96000 48000 1 = 2000 :=
  get_duration_spec 96000 48000 1 (by decide) (by decide)

/-- Claim C9: after set_mic_volume v the mic-volume scalar is exactly v and the
sound-volume scalar is unchanged, and symmetrically for set_sound_volume; the
mixer's subsequent pull loads exactly the stored value (the AtomicU32
bit-pattern round-trip is the identity, so the cell is embedded as the value). -/
theorem set_volume_spec (s : AudioPipeline) (v : Sample) :
    (set_mic_volume s v).volume = v ∧
    (set_mic_volume s v).sound_volume = s.sound_volume ∧
    (set_sound_volume s v).sound_volume = v ∧
    (set_sound_volume s v).volume = s.volume ∧
    (MicSource.next (set_mic_volume s v)).1
      = some (s.consumer.data.headD 0 * v
          + s.sound_consumer.data.headD 0 * s.sound_volume) ∧
    (MicSource.next (set_sound_volume s v)).1
      = some (s.consumer.data.headD 0 * s.volume
          + s.sound_consumer.data.headD 0 * v) := by
  refine ⟨rfl, rfl, rfl, rfl, ?_, ?_⟩ <;>
    simp [mixer_next_eq, set_mic_volume, set_sound_volume]

/-- Claim C10: on an odd-length input the stereo→mono branch is total — the
final one-sample chunk is averaged with an implicit 0.0 — so the output length
is ceil(input_length / 2) = (input_length + 1) / 2 and the output's last
sample is the input's last sample divided by 2. -/
theorem stereo_to_mono_odd_spec (xs : List Sample) (h : xs.length % 2 = 1) :
    (stereoToMono xs).length = (xs.length + 1) / 2 ∧
    (stereoToMono xs).getLastD 0 = xs.getLastD 0 / 2 := by
  refine ⟨stereoToMono_length xs, ?_⟩
  induction xs using stereoToMono.induct with
  | case1 => simp at h
  | case2 a => simp [stereoToMono]
  | case3 a b rest ih =>
      have hr : rest.length % 2 = 1 := by
        simp [List.length_cons] at h
        omega
      have hrn : rest ≠ [] := by
        intro he
        rw [he] at hr
        simp at hr
      have hsm : stereoToMono rest ≠ [] := stereoToMono_ne_nil rest hrn
      simp only [stereoToMono, List.getLastD_cons]
      rw [getLastD_irrel _ _ 0 hsm, getLastD_irrel rest _ 0 hrn]
      exact ih hr

/-- Witness for C10 on the three-sample input [1, 2, 3]. -/
theorem stereo_to_mono_odd_spec_witness :
    ([1, 2, 3] : List Sample).length % 2 = 1 ∧
    ((stereoToMono [1, 2, 3]).length = (([1, 2, 3] : List Sample).length + 1) / 2 ∧
     (stereoToMono [1, 2, 3]).getLastD 0 = ([1, 2, 3] : List Sample).getLastD 0 / 2) :=
  ⟨by decide, stereo_to_mono_odd_spec [1, 2, 3] (by decide)⟩

end Deck8Hub
